import Mathlib

/-!
Shallow embedding of the ride-pooling matching-and-pricing core.

Sources embedded here:
- src/matching.py : haversine_km, approximate_detour_if_added, run_matching
- src/pricing.py  : compute_price
- src/main.py     : cancel_request, accept_ride
- src/models.py   : RideRequest, Ride

Python floats are modelled as real numbers; Python ints as integers
(ids as naturals, since they are database primary keys).  Python's
round(x, 2) is modelled by rounding x*100 to the nearest integer:
its tie-breaking (round-half-even) differs from Int.round only when
x*100 is an exact half-integer, i.e. when x is an odd multiple of
1/200 — a value no binary float can take, so the two are
observationally equal on the source's float inputs.
-/

set_option linter.unusedVariables false

namespace RidePool

/-- Python math.radians: degrees to radians. -/
noncomputable def radians (x : ℝ) : ℝ := x * (Real.pi / 180)

/-- Python math.atan2 (two-argument arctangent); signed zeros are not
representable over ℝ, atan2 0 0 = 0 as in CPython. -/
noncomputable def atan2 (y x : ℝ) : ℝ :=
  if 0 < x then Real.arctan (y / x)
  else if x < 0 then
    (if 0 ≤ y then Real.arctan (y / x) + Real.pi else Real.arctan (y / x) - Real.pi)
  else if 0 < y then Real.pi / 2
  else if y < 0 then -(Real.pi / 2)
  else 0

/-- The intermediate value a_ of haversine_km (src/matching.py line 17). -/
noncomputable def hav_h (a b : ℝ × ℝ) : ℝ :=
  Real.sin (radians (b.1 - a.1) / 2) ^ 2 +
    Real.cos (radians a.1) * Real.cos (radians b.1) * Real.sin (radians (b.2 - a.2) / 2) ^ 2

/-- src/matching.py haversine_km: great-circle distance, Earth radius 6371.0 km;
c = 2 * atan2(sqrt(a_), sqrt(1 - a_)), result R * c. -/
noncomputable def haversine_km (a b : ℝ × ℝ) : ℝ :=
  6371.0 * (2 * atan2 (Real.sqrt (hav_h a b)) (Real.sqrt (1 - hav_h a b)))

/-- Python round(x, 2) (see the tie-breaking note in the file header). -/
noncomputable def round2 (x : ℝ) : ℝ := (round (x * 100) : ℝ) / 100

/-- src/pricing.py compute_price. -/
noncomputable def compute_price (distance_km : ℝ) (occupancy : ℤ) (seats_total : ℤ)
    (demand_factor : ℝ) : ℝ :=
  let base := 5.0
  let per_km := 1.2
  let occ_discount := max 0.7 (1.0 - 0.05 * ((occupancy : ℝ) - 1))
  let raw := (base + per_km * distance_km) * occ_discount * demand_factor
  round2 raw

/-- src/models.py RideRequest (created_at kept abstract as a ℕ ordering key). -/
structure RideRequest where
  id : ℕ
  user_id : ℕ
  origin_lat : ℝ
  origin_lng : ℝ
  dest_lat : ℝ
  dest_lng : ℝ
  seats_required : ℤ
  luggage : ℤ
  detour_tolerance_km : ℝ
  created_at : ℕ
  status : String

instance : Inhabited RideRequest :=
  ⟨⟨0, 0, 0, 0, 0, 0, 0, 0, 0, 0, "pending"⟩⟩

/-- src/models.py Ride.  The source formats the per-passenger price into the
text field `driver`; the numeric value is modelled directly. -/
structure Ride where
  id : ℕ
  driver : Option ℝ
  seats_total : ℤ
  luggage_capacity : ℤ
  occupancy : ℕ
  luggage_used : ℤ
  requests : List ℕ
  origin_lat : ℝ
  origin_lng : ℝ
  dest_lat : ℝ
  dest_lng : ℝ
  status : String

/-- src/matching.py approximate_detour_if_added: 0 for an empty group,
otherwise the representative is the first member of the group. -/
noncomputable def approximate_detour_if_added (existing : List RideRequest)
    (candidate : RideRequest) : ℝ :=
  match existing with
  | [] => 0.0
  | rep :: _ =>
      max 0.0
        ((haversine_km (candidate.origin_lat, candidate.origin_lng) (rep.origin_lat, rep.origin_lng)
          + haversine_km (rep.origin_lat, rep.origin_lng) (rep.dest_lat, rep.dest_lng)
          + haversine_km (rep.dest_lat, rep.dest_lng) (candidate.dest_lat, candidate.dest_lng))
          - haversine_km (candidate.origin_lat, candidate.origin_lng) (candidate.dest_lat, candidate.dest_lng))

/-- Inner scan of run_matching (src/matching.py lines 58-70): try to add each
request of the pending list to the group anchored at the request with id rid,
skipping the anchor itself and already-used ids, rejecting on seat overflow,
luggage overflow, then on detour tolerance.  Parametrised by the detour
estimator; run_matching instantiates it with approximate_detour_if_added. -/
noncomputable def addCandidates (detour : List RideRequest → RideRequest → ℝ)
    (max_seats max_luggage : ℤ) (rid : ℕ) (used : List ℕ) :
    List RideRequest → List RideRequest → ℤ → ℤ → List RideRequest × ℤ × ℤ
  | [], group, seats, luggage => (group, seats, luggage)
  | other :: rest, group, seats, luggage =>
    if other.id = rid ∨ other.id ∈ used then
      addCandidates detour max_seats max_luggage rid used rest group seats luggage
    else if max_seats < seats + other.seats_required then
      addCandidates detour max_seats max_luggage rid used rest group seats luggage
    else if max_luggage < luggage + other.luggage then
      addCandidates detour max_seats max_luggage rid used rest group seats luggage
    else if detour group other ≤ other.detour_tolerance_km then
      addCandidates detour max_seats max_luggage rid used rest (group ++ [other])
        (seats + other.seats_required) (luggage + other.luggage)
    else
      addCandidates detour max_seats max_luggage rid used rest group seats luggage

/-- Outer loop of run_matching (src/matching.py lines 51-109): walk the pending
list in order; an unused request anchors a new group, whose members are then
all marked used.  Returns each finalized group with its running seat and
luggage totals. -/
noncomputable def matchLoop (detour : List RideRequest → RideRequest → ℝ)
    (max_seats max_luggage : ℤ) (pending : List RideRequest) :
    List RideRequest → List ℕ → List (List RideRequest × ℤ × ℤ)
  | [], _ => []
  | r :: rest, used =>
    if r.id ∈ used then matchLoop detour max_seats max_luggage pending rest used
    else
      let g := addCandidates detour max_seats max_luggage r.id used pending [r]
        r.seats_required r.luggage
      g :: matchLoop detour max_seats max_luggage pending rest (used ++ g.1.map RideRequest.id)

/-- The groups produced by one matching pass of run_matching over the given
pending list (already ordered by created_at, as the source's query returns it). -/
noncomputable def run_matching_groups (max_seats max_luggage : ℤ)
    (pending : List RideRequest) : List (List RideRequest) :=
  (matchLoop approximate_detour_if_added max_seats max_luggage pending pending []).map (·.1)

/-- Sum of the direct origin→destination distances of the group's members
(src/matching.py line 80). -/
noncomputable def total_dist (group : List RideRequest) : ℝ :=
  (group.map (fun g => haversine_km (g.origin_lat, g.origin_lng) (g.dest_lat, g.dest_lng))).sum

/-- The Ride record run_matching creates for one finalized group
(src/matching.py lines 81-106), including the per-passenger price the source
then stores in the driver field. -/
noncomputable def mkRide (max_seats max_luggage : ℤ) (rideId : ℕ)
    (g : List RideRequest × ℤ × ℤ) : Ride :=
  { id := rideId
    driver := some (compute_price (total_dist g.1) (g.1.length : ℤ) max_seats 1.0)
    seats_total := max_seats
    luggage_capacity := max_luggage
    occupancy := g.1.length
    luggage_used := g.2.2
    requests := g.1.map RideRequest.id
    origin_lat := g.1.headI.origin_lat
    origin_lng := g.1.headI.origin_lng
    dest_lat := g.1.headI.dest_lat
    dest_lng := g.1.headI.dest_lng
    status := "proposed" }

/-- Result of one run_matching invocation: the locked soft outcome, or the
count of created rides. -/
inductive MatchResult where
  | locked : MatchResult
  | created : ℕ → MatchResult
deriving DecidableEq

/-- The persistent state the core mutates: the RideRequest and Ride tables and
the process-local matching lock. -/
structure SysState where
  requests : List RideRequest
  rides : List Ride
  lockHeld : Bool

/-- Steps 2-4 of run_matching, executed while the lock is held
(src/matching.py lines 47-110): query the pending requests in order, build the
groups, persist one Ride per group and mark its members matched.  The second
component is none when the body aborts exceptionally (nowhere in this body,
but the lock wrapper must tolerate it). -/
noncomputable def matchBody (max_seats max_luggage : ℤ) (st : SysState) :
    SysState × Option MatchResult :=
  let pending := st.requests.filter (fun r => r.status == "pending")
  let gs := matchLoop approximate_detour_if_added max_seats max_luggage pending pending []
  let newRides := gs.mapIdx (fun i g => mkRide max_seats max_luggage (st.rides.length + i + 1) g)
  let matchedIds := (gs.map (·.1)).flatten.map RideRequest.id
  ({ st with
      rides := st.rides ++ newRides
      requests := st.requests.map (fun r =>
        if r.id ∈ matchedIds then { r with status := "matched" } else r) },
    some (MatchResult.created gs.length))

/-- The lock discipline of run_matching (src/matching.py lines 42-45 and
111-112): bounded acquire, "locked" soft result on timeout, unconditional
release in a finally block.  Acquisition timing out is modelled as the lock
being held by another caller; the body is a parameter so the release holds for
any body, including one that aborts (returns none). -/
def run_guarded (body : SysState → SysState × Option MatchResult) (st : SysState) :
    SysState × Option MatchResult :=
  if st.lockHeld then (st, some MatchResult.locked)
  else
    let r := body { st with lockHeld := true }
    ({ r.1 with lockHeld := false }, r.2)

/-- src/matching.py run_matching, as a transition on the system state. -/
noncomputable def run_matching (max_seats max_luggage : ℤ) (st : SysState) :
    SysState × Option MatchResult :=
  run_guarded (matchBody max_seats max_luggage) st

inductive CancelOutcome where
  | notFound : CancelOutcome
  | cancelled : CancelOutcome
deriving DecidableEq

/-- src/main.py cancel_request: look the request up by id; 404 when absent;
otherwise set its status to "cancelled" unconditionally (the source checks no
precondition on the current status). -/
def cancel_request (st : SysState) (request_id : ℕ) : SysState × CancelOutcome :=
  match st.requests.find? (fun r => r.id == request_id) with
  | none => (st, CancelOutcome.notFound)
  | some _ =>
      ({ st with requests := st.requests.map (fun r =>
          if r.id = request_id then { r with status := "cancelled" } else r) },
        CancelOutcome.cancelled)

inductive AcceptOutcome where
  | notFound : AcceptOutcome
  | rejected : AcceptOutcome
  | accepted : AcceptOutcome
deriving DecidableEq

/-- src/main.py accept_ride: 404 when absent; 400 unless the ride is currently
"proposed"; otherwise transition it to "active". -/
def accept_ride (st : SysState) (ride_id : ℕ) : SysState × AcceptOutcome :=
  match st.rides.find? (fun d => d.id == ride_id) with
  | none => (st, AcceptOutcome.notFound)
  | some d =>
      if d.status = "proposed" then
        ({ st with rides := st.rides.map (fun x =>
            if x.id = ride_id then { x with status := "active" } else x) },
          AcceptOutcome.accepted)
      else (st, AcceptOutcome.rejected)

/-! ### Helper lemmas about rounding -/

lemma round_eval (x : ℝ) (z : ℤ) (h1 : (z : ℝ) ≤ x + 1 / 2) (h2 : x + 1 / 2 < z + 1) :
    round x = z := by
  rw [round_eq, Int.floor_eq_iff]
  exact ⟨h1, by exact_mod_cast h2⟩

lemma round2_eval (x : ℝ) (z : ℤ) (h1 : (z : ℝ) ≤ x * 100 + 1 / 2)
    (h2 : x * 100 + 1 / 2 < z + 1) : round2 x = (z : ℝ) / 100 := by
  unfold round2
  rw [round_eval (x * 100) z h1 h2]

lemma round2_mono {x y : ℝ} (h : x ≤ y) : round2 x ≤ round2 y := by
  unfold round2
  have hr : round (x * 100) ≤ round (y * 100) := by
    rw [round_eq, round_eq]
    exact Int.floor_le_floor (by linarith)
  have hc : ((round (x * 100) : ℤ) : ℝ) ≤ ((round (y * 100) : ℤ) : ℝ) := Int.cast_le.mpr hr
  linarith

/-! ### C5: the pricing formula -/

/-- C5: for every totalDistanceKm ≥ 0, occupancy ≥ 1, seatsTotal and
demandFactor, compute_price equals round((5.0 + 1.2·d) · max(0.7, 1.0 −
0.05·(occupancy − 1)) · demandFactor, 2); in particular
price(10.0, 1, 4, 1.0) = 17.0. -/
theorem price_formula :
    (∀ (d : ℝ) (n s : ℤ) (f : ℝ), 0 ≤ d → 1 ≤ n →
      compute_price d n s f =
        round2 ((5.0 + 1.2 * d) * max 0.7 (1.0 - 0.05 * ((n : ℝ) - 1)) * f)) ∧
    compute_price 10.0 1 4 1.0 = 17.0 := by
  constructor
  · intro d n s f _ _
    rfl
  · simp only [compute_price]
    have h1 : max (0.7 : ℝ) (1.0 - 0.05 * (((1 : ℤ) : ℝ) - 1)) = 1.0 := by norm_num
    rw [h1]
    have h2 : ((5.0 : ℝ) + 1.2 * 10.0) * 1.0 * 1.0 = 17 := by norm_num
    rw [h2]
    rw [round2_eval 17 1700 (by norm_num) (by norm_num)]
    norm_num

/-- Witness for price_formula at d = 10, n = 1, s = 4, f = 1. -/
theorem price_formula_witness :
    (0 : ℝ) ≤ 10.0 ∧ (1 : ℤ) ≤ 1 ∧
      compute_price 10.0 1 4 1.0 =
        round2 ((5.0 + 1.2 * 10.0) * max 0.7 (1.0 - 0.05 * (((1 : ℤ) : ℝ) - 1)) * 1.0) :=
  ⟨by norm_num, le_refl 1,
    price_formula.1 10.0 1 4 1.0 (by norm_num) (le_refl 1)⟩

/-! ### C10: seats_total is dead -/

/-- C10: compute_price is independent of its seats_total argument. -/
theorem price_ignores_seats_total (d : ℝ) (n s1 s2 : ℤ) (f : ℝ) :
    compute_price d n s1 f = compute_price d n s2 f := rfl

/-! ### C6: monotonicity of the price -/

/-- C6 as stated is false: rounding to two decimals makes the price merely
non-decreasing, not strictly increasing, in demandFactor.  At distance 10,
occupancy 1, demand factors 1 < 1.0001 give the identical price 17.0. -/
theorem price_demand_not_strict :
    (0 : ℝ) < 1.0 ∧ (1.0 : ℝ) < 1.0001 ∧
      ¬ (compute_price 10.0 1 4 1.0 < compute_price 10.0 1 4 1.0001) := by
  refine ⟨by norm_num, by norm_num, ?_⟩
  have h1 : max (0.7 : ℝ) (1.0 - 0.05 * (((1 : ℤ) : ℝ) - 1)) = 1.0 := by norm_num
  have e1 : compute_price 10.0 1 4 1.0 = 17.0 := price_formula.2
  have e2 : compute_price 10.0 1 4 1.0001 = 17.0 := by
    simp only [compute_price]
    rw [h1]
    have h2 : ((5.0 : ℝ) + 1.2 * 10.0) * 1.0 * 1.0001 = 17.0017 := by norm_num
    rw [h2]
    rw [round2_eval 17.0017 1700 (by norm_num) (by norm_num)]
    norm_num
  rw [e1, e2]
  exact lt_irrefl _

/-- C6 amended: for fixed distance ≥ 0 and demand factor ≥ 0 the price is
non-increasing in occupancy (with the discount pinned at 0.7 for occupancy
≥ 10), and for fixed distance ≥ 0 and occupancy the price is non-decreasing
(not strictly increasing: rounding to two decimals can merge nearby demand
factors) in demandFactor. -/
theorem price_monotonicity_amended :
    (∀ (d : ℝ) (s : ℤ) (f : ℝ) (n1 n2 : ℤ), 0 ≤ d → 0 ≤ f → 1 ≤ n1 → n1 ≤ n2 →
      compute_price d n2 s f ≤ compute_price d n1 s f) ∧
    (∀ (d : ℝ) (s n : ℤ) (f : ℝ), 10 ≤ n →
      compute_price d n s f = round2 ((5.0 + 1.2 * d) * 0.7 * f)) ∧
    (∀ (d : ℝ) (s n : ℤ) (f1 f2 : ℝ), 0 ≤ d → 0 < f1 → f1 ≤ f2 →
      compute_price d n s f1 ≤ compute_price d n s f2) := by
  refine ⟨?_, ?_, ?_⟩
  · intro d s f n1 n2 hd hf hn1 hn12
    simp only [compute_price]
    apply round2_mono
    have hB : (0 : ℝ) ≤ 5.0 + 1.2 * d := by linarith
    have hdisc : max (0.7 : ℝ) (1.0 - 0.05 * ((n2 : ℝ) - 1)) ≤
        max 0.7 (1.0 - 0.05 * ((n1 : ℝ) - 1)) := by
      have : ((n1 : ℝ)) ≤ (n2 : ℝ) := Int.cast_le.mpr hn12
      exact max_le_max (le_refl _) (by linarith)
    have := mul_le_mul_of_nonneg_left hdisc hB
    exact mul_le_mul_of_nonneg_right this hf
  · intro d s n f hn
    simp only [compute_price]
    have : max (0.7 : ℝ) (1.0 - 0.05 * ((n : ℝ) - 1)) = 0.7 := by
      have : (10 : ℝ) ≤ (n : ℝ) := by exact_mod_cast hn
      exact max_eq_left (by linarith)
    rw [this]
  · intro d s n f1 f2 hd hf1 hf12
    simp only [compute_price]
    apply round2_mono
    have hBd : (0 : ℝ) ≤ (5.0 + 1.2 * d) * max 0.7 (1.0 - 0.05 * ((n : ℝ) - 1)) := by
      have h1 : (0 : ℝ) ≤ 5.0 + 1.2 * d := by linarith
      have h2 : (0 : ℝ) ≤ max 0.7 (1.0 - 0.05 * ((n : ℝ) - 1)) :=
        le_trans (by norm_num) (le_max_left _ _)
      exact mul_nonneg h1 h2
    exact mul_le_mul_of_nonneg_left hf12 hBd

/-- Witness for price_monotonicity_amended at concrete inputs. -/
theorem price_monotonicity_amended_witness :
    compute_price 10.0 3 4 1.0 ≤ compute_price 10.0 1 4 1.0 ∧
      compute_price 10.0 12 4 1.0 = round2 ((5.0 + 1.2 * 10.0) * 0.7 * 1.0) ∧
      compute_price 10.0 1 4 1.0 ≤ compute_price 10.0 1 4 1.5 :=
  ⟨price_monotonicity_amended.1 10.0 4 1.0 1 3 (by norm_num) (by norm_num)
      (le_refl 1) (by norm_num),
    price_monotonicity_amended.2.1 10.0 4 12 1.0 (by norm_num),
    price_monotonicity_amended.2.2 10.0 4 1 1.0 1.5 (by norm_num) (by norm_num)
      (by norm_num)⟩

/-! ### C4: the detour estimate -/

/-- C4: extraDistance returns 0 on an empty group, and otherwise equals
max(0, d(candidate.origin, rep.origin) + d(rep.origin, rep.dest) +
d(rep.dest, candidate.dest) − d(candidate.origin, candidate.dest)) where rep is
the first member of the group as currently ordered. -/
theorem detour_formula :
    (∀ c : RideRequest, approximate_detour_if_added [] c = 0) ∧
    (∀ (rep : RideRequest) (rest : List RideRequest) (c : RideRequest),
      approximate_detour_if_added (rep :: rest) c =
        max 0 (haversine_km (c.origin_lat, c.origin_lng) (rep.origin_lat, rep.origin_lng)
          + haversine_km (rep.origin_lat, rep.origin_lng) (rep.dest_lat, rep.dest_lng)
          + haversine_km (rep.dest_lat, rep.dest_lng) (c.dest_lat, c.dest_lng)
          - haversine_km (c.origin_lat, c.origin_lng) (c.dest_lat, c.dest_lng))) := by
  constructor
  · intro c
    norm_num [approximate_detour_if_added]
  · intro rep rest c
    simp only [approximate_detour_if_added]
    norm_num

/-! ### C9: properties of the haversine distance -/

/-- C9: the haversine great-circle distance (Earth radius 6371.0 km) is zero
on identical points and symmetric in its two arguments. -/
theorem haversine_properties :
    (∀ p : ℝ × ℝ, haversine_km p p = 0) ∧
    (∀ a b : ℝ × ℝ, haversine_km a b = haversine_km b a) := by
  constructor
  · intro p
    have hh : hav_h p p = 0 := by
      simp [hav_h, radians]
    norm_num [haversine_km, hh, atan2, Real.arctan_zero]
  · intro a b
    have hsin : ∀ x y : ℝ,
        Real.sin (radians (x - y) / 2) ^ 2 = Real.sin (radians (y - x) / 2) ^ 2 := by
      intro x y
      have h : radians (x - y) / 2 = -(radians (y - x) / 2) := by
        simp only [radians]; ring
      rw [h, Real.sin_neg, neg_sq]
    have hh : hav_h a b = hav_h b a := by
      simp only [hav_h]
      rw [hsin b.1 a.1, hsin b.2 a.2,
        mul_comm (Real.cos (radians a.1)) (Real.cos (radians b.1))]
    simp only [haversine_km, hh]

/-! ### C7: the lock discipline -/

/-- C7: when lock acquisition times out, run_matching returns the "locked"
result and touches neither the requests nor the rides; and after a successful
acquisition the lock is released before returning, whatever the guarded body
does (including an exceptional abort, body result none). -/
theorem lock_discipline (body : SysState → SysState × Option MatchResult) (st : SysState) :
    (st.lockHeld = true → run_guarded body st = (st, some MatchResult.locked)) ∧
    (st.lockHeld = false → (run_guarded body st).1.lockHeld = false) := by
  constructor
  · intro h
    simp [run_guarded, h]
  · intro h
    simp [run_guarded, h]

/-- Witness for lock_discipline: a held lock yields the locked no-op, an
acquired lock is released, for an aborting body. -/
theorem lock_discipline_witness :
    run_guarded (fun s => (s, none)) ⟨[], [], true⟩ = (⟨[], [], true⟩, some MatchResult.locked) ∧
      (run_guarded (fun s => (s, none)) ⟨[], [], false⟩).1.lockHeld = false :=
  ⟨(lock_discipline (fun s => (s, none)) ⟨[], [], true⟩).1 rfl,
    (lock_discipline (fun s => (s, none)) ⟨[], [], false⟩).2 rfl⟩

/-! ### C8: a pass over an empty pending queue is a no-op -/

/-- C8: when no request is pending (and the lock is free), a matching pass
returns createdRides = 0 and performs no writes: the state is unchanged. -/
theorem empty_pass_noop (max_seats max_luggage : ℤ) (st : SysState)
    (h1 : st.requests.filter (fun r => r.status == "pending") = [])
    (h2 : st.lockHeld = false) :
    run_matching max_seats max_luggage st = (st, some (MatchResult.created 0)) := by
  obtain ⟨reqs, rides, lh⟩ := st
  simp only at h1 h2
  subst h2
  simp [run_matching, run_guarded, matchBody, h1, matchLoop]

/-- Witness for empty_pass_noop on the empty state. -/
theorem empty_pass_noop_witness :
    run_matching 4 4 ⟨[], [], false⟩ = (⟨[], [], false⟩, some (MatchResult.created 0)) :=
  empty_pass_noop 4 4 ⟨[], [], false⟩ rfl rfl

/-! ### Lemmas about the inner scan addCandidates -/

/-- The running seat and luggage totals never leave their caps: each
acceptance is guarded by both capacity checks. -/
lemma addCandidates_totals_le (detour : List RideRequest → RideRequest → ℝ)
    (ms ml : ℤ) (rid : ℕ) (used : List ℕ) :
    ∀ (scan group : List RideRequest) (s l : ℤ), s ≤ ms → l ≤ ml →
      (addCandidates detour ms ml rid used scan group s l).2.1 ≤ ms ∧
      (addCandidates detour ms ml rid used scan group s l).2.2 ≤ ml := by
  intro scan
  induction scan with
  | nil =>
    intro group s l hs hl
    simp only [addCandidates]
    exact ⟨hs, hl⟩
  | cons other rest ih =>
    intro group s l hs hl
    simp only [addCandidates]
    by_cases h1 : other.id = rid ∨ other.id ∈ used
    · rw [if_pos h1]; exact ih group s l hs hl
    · rw [if_neg h1]
      by_cases h2 : ms < s + other.seats_required
      · rw [if_pos h2]; exact ih group s l hs hl
      · rw [if_neg h2]
        by_cases h3 : ml < l + other.luggage
        · rw [if_pos h3]; exact ih group s l hs hl
        · rw [if_neg h3]
          by_cases h4 : detour group other ≤ other.detour_tolerance_km
          · rw [if_pos h4]
            exact ih _ _ _ (not_lt.mp h2) (not_lt.mp h3)
          · rw [if_neg h4]; exact ih group s l hs hl

/-- The running totals track the member sums of the group being built. -/
lemma addCandidates_sums (detour : List RideRequest → RideRequest → ℝ)
    (ms ml : ℤ) (rid : ℕ) (used : List ℕ) :
    ∀ (scan group : List RideRequest) (s l : ℤ),
      s = (group.map (fun x => x.seats_required)).sum →
      l = (group.map (fun x => x.luggage)).sum →
      (addCandidates detour ms ml rid used scan group s l).2.1 =
        ((addCandidates detour ms ml rid used scan group s l).1.map
          (fun x => x.seats_required)).sum ∧
      (addCandidates detour ms ml rid used scan group s l).2.2 =
        ((addCandidates detour ms ml rid used scan group s l).1.map
          (fun x => x.luggage)).sum := by
  intro scan
  induction scan with
  | nil =>
    intro group s l hs hl
    simp only [addCandidates]
    exact ⟨hs, hl⟩
  | cons other rest ih =>
    intro group s l hs hl
    simp only [addCandidates]
    by_cases h1 : other.id = rid ∨ other.id ∈ used
    · rw [if_pos h1]; exact ih group s l hs hl
    · rw [if_neg h1]
      by_cases h2 : ms < s + other.seats_required
      · rw [if_pos h2]; exact ih group s l hs hl
      · rw [if_neg h2]
        by_cases h3 : ml < l + other.luggage
        · rw [if_pos h3]; exact ih group s l hs hl
        · rw [if_neg h3]
          by_cases h4 : detour group other ≤ other.detour_tolerance_km
          · rw [if_pos h4]
            refine ih (group ++ [other]) _ _ ?_ ?_
            · rw [hs]; simp
            · rw [hl]; simp
          · rw [if_neg h4]; exact ih group s l hs hl

/-- Structure of the built group: the initial group extended by a sublist of
the scanned list, all of whose members were neither the anchor nor used. -/
lemma addCandidates_group (detour : List RideRequest → RideRequest → ℝ)
    (ms ml : ℤ) (rid : ℕ) (used : List ℕ) :
    ∀ (scan group : List RideRequest) (s l : ℤ), ∃ acc,
      (addCandidates detour ms ml rid used scan group s l).1 = group ++ acc ∧
      acc.Sublist scan ∧ ∀ x ∈ acc, ¬(x.id = rid ∨ x.id ∈ used) := by
  intro scan
  induction scan with
  | nil =>
    intro group s l
    refine ⟨[], ?_, List.nil_sublist _, by simp⟩
    simp [addCandidates]
  | cons other rest ih =>
    intro group s l
    simp only [addCandidates]
    by_cases h1 : other.id = rid ∨ other.id ∈ used
    · rw [if_pos h1]
      obtain ⟨acc, ha, hsub, hp⟩ := ih group s l
      exact ⟨acc, ha, hsub.cons other, hp⟩
    · rw [if_neg h1]
      by_cases h2 : ms < s + other.seats_required
      · rw [if_pos h2]
        obtain ⟨acc, ha, hsub, hp⟩ := ih group s l
        exact ⟨acc, ha, hsub.cons other, hp⟩
      · rw [if_neg h2]
        by_cases h3 : ml < l + other.luggage
        · rw [if_pos h3]
          obtain ⟨acc, ha, hsub, hp⟩ := ih group s l
          exact ⟨acc, ha, hsub.cons other, hp⟩
        · rw [if_neg h3]
          by_cases h4 : detour group other ≤ other.detour_tolerance_km
          · rw [if_pos h4]
            obtain ⟨acc, ha, hsub, hp⟩ := ih (group ++ [other]) _ _
            refine ⟨other :: acc, ?_, hsub.cons₂ other, ?_⟩
            · rw [ha, List.append_assoc]; rfl
            · intro x hx
              rcases List.mem_cons.mp hx with rfl | hx'
              · exact h1
              · exact hp x hx'
          · rw [if_neg h4]
            obtain ⟨acc, ha, hsub, hp⟩ := ih group s l
            exact ⟨acc, ha, hsub.cons other, hp⟩

/-! ### C1: capacity invariant of the produced groups -/

/-- Every group produced by the outer loop keeps its member sums within the
caps, provided every request of the processed suffix fits on its own. -/
lemma matchLoop_capacity (detour : List RideRequest → RideRequest → ℝ)
    (ms ml : ℤ) (pending : List RideRequest) :
    ∀ (rest : List RideRequest) (used : List ℕ),
      (∀ r ∈ rest, r.seats_required ≤ ms ∧ r.luggage ≤ ml) →
      ∀ p ∈ matchLoop detour ms ml pending rest used,
        (p.1.map (fun x => x.seats_required)).sum ≤ ms ∧
        (p.1.map (fun x => x.luggage)).sum ≤ ml := by
  intro rest
  induction rest with
  | nil =>
    intro used h p hp
    simp [matchLoop] at hp
  | cons r rest ih =>
    intro used h p hp
    simp only [matchLoop] at hp
    by_cases hu : r.id ∈ used
    · rw [if_pos hu] at hp
      exact ih used (fun x hx => h x (List.mem_cons_of_mem _ hx)) p hp
    · rw [if_neg hu] at hp
      rcases List.mem_cons.mp hp with rfl | hp'
      · have h0 := h r (List.mem_cons_self r rest)
        have hle := addCandidates_totals_le detour ms ml r.id used pending [r]
          r.seats_required r.luggage h0.1 h0.2
        have hsum := addCandidates_sums detour ms ml r.id used pending [r]
          r.seats_required r.luggage (by simp) (by simp)
        exact ⟨hsum.1 ▸ hle.1, hsum.2 ▸ hle.2⟩
      · exact ih _ (fun x hx => h x (List.mem_cons_of_mem _ hx)) p hp'

/-- C1 amended: if additionally every pending request individually fits within
the caps (seats_required ≤ max_seats, luggage ≤ max_luggage), then every group
produced by a matching pass has Σ seats_required ≤ max_seats (= the created
ride's seats_total) and Σ luggage ≤ max_luggage (= luggage_capacity). -/
theorem matching_capacity_amended (ms ml : ℤ) (pending : List RideRequest)
    (h : ∀ r ∈ pending, 1 ≤ r.seats_required ∧ 0 ≤ r.luggage ∧
      r.seats_required ≤ ms ∧ r.luggage ≤ ml) :
    ∀ g ∈ run_matching_groups ms ml pending,
      (g.map (fun x => x.seats_required)).sum ≤ ms ∧
      (g.map (fun x => x.luggage)).sum ≤ ml := by
  intro g hg
  simp only [run_matching_groups, List.mem_map] at hg
  obtain ⟨p, hp, rfl⟩ := hg
  exact matchLoop_capacity approximate_detour_if_added ms ml pending pending []
    (fun r hr => ⟨(h r hr).2.2.1, (h r hr).2.2.2⟩) p hp

/-- Witness for matching_capacity_amended on a one-request queue, applied to
the one group that queue produces. -/
theorem matching_capacity_amended_witness :
    (([(⟨1, 1, 0, 0, 0, 0, 1, 0, 5.0, 0, "pending"⟩ : RideRequest)].map
        (fun x => x.seats_required)).sum ≤ 4) ∧
    (([(⟨1, 1, 0, 0, 0, 0, 1, 0, 5.0, 0, "pending"⟩ : RideRequest)].map
        (fun x => x.luggage)).sum ≤ 4) := by
  have hyp : ∀ r ∈ [(⟨1, 1, 0, 0, 0, 0, 1, 0, 5.0, 0, "pending"⟩ : RideRequest)],
      1 ≤ r.seats_required ∧ 0 ≤ r.luggage ∧ r.seats_required ≤ 4 ∧ r.luggage ≤ 4 := by
    intro r hr
    rw [List.mem_singleton] at hr
    subst hr
    refine ⟨by norm_num, by norm_num, by norm_num, by norm_num⟩
  have hmem : [(⟨1, 1, 0, 0, 0, 0, 1, 0, 5.0, 0, "pending"⟩ : RideRequest)] ∈
      run_matching_groups 4 4 [(⟨1, 1, 0, 0, 0, 0, 1, 0, 5.0, 0, "pending"⟩ : RideRequest)] := by
    have heq : run_matching_groups 4 4
        [(⟨1, 1, 0, 0, 0, 0, 1, 0, 5.0, 0, "pending"⟩ : RideRequest)] =
        [[(⟨1, 1, 0, 0, 0, 0, 1, 0, 5.0, 0, "pending"⟩ : RideRequest)]] := by
      simp [run_matching_groups, matchLoop, addCandidates]
    rw [heq]
    exact List.mem_singleton_self _
  exact matching_capacity_amended 4 4 _ hyp _ hmem

/-- C1 as stated is false: the algorithm never checks the anchor request's own
demand against the caps, so a single pending request with seats_required = 5
(≥ 1, luggage 0 ≥ 0) produces a group whose seat sum 5 exceeds
seats_total = 4. -/
theorem matching_capacity_counterexample :
    (∀ r ∈ [(⟨1, 1, 0, 0, 0, 0, 5, 0, 5.0, 0, "pending"⟩ : RideRequest)],
      1 ≤ r.seats_required ∧ 0 ≤ r.luggage) ∧
    ∃ g ∈ run_matching_groups 4 4
        [(⟨1, 1, 0, 0, 0, 0, 5, 0, 5.0, 0, "pending"⟩ : RideRequest)],
      ¬ ((g.map (fun x => x.seats_required)).sum ≤ 4) := by
  constructor
  · intro r hr
    rw [List.mem_singleton] at hr
    subst hr
    exact ⟨by norm_num, le_refl 0⟩
  · refine ⟨[(⟨1, 1, 0, 0, 0, 0, 5, 0, 5.0, 0, "pending"⟩ : RideRequest)], ?_, by norm_num⟩
    have : run_matching_groups 4 4
        [(⟨1, 1, 0, 0, 0, 0, 5, 0, 5.0, 0, "pending"⟩ : RideRequest)] =
        [[(⟨1, 1, 0, 0, 0, 0, 5, 0, 5.0, 0, "pending"⟩ : RideRequest)]] := by
      simp [run_matching_groups, matchLoop, addCandidates]
    rw [this]
    exact List.mem_singleton_self _

/-! ### C2: the produced groups partition the pending queue -/

lemma sublist_filter_of_all {α : Type*} {l acc : List α} {p : α → Bool}
    (hs : acc.Sublist l) (hp : ∀ x ∈ acc, p x = true) : acc.Sublist (l.filter p) := by
  have h2 := hs.filter p
  rwa [List.filter_eq_self.mpr hp] at h2

/-- Removing an id-sublist from an id-nodup list and prepending it is a
permutation: acc ++ (L minus the ids of acc) ~ L. -/
lemma perm_append_filter_not_mem {L acc : List RideRequest} (hs : acc.Sublist L)
    (hnd : (L.map RideRequest.id).Nodup) :
    (acc ++ L.filter (fun x => decide (x.id ∉ acc.map RideRequest.id))).Perm L := by
  induction hs with
  | slnil => simp
  | @cons l₁ l₂ b hs ih =>
    have hnd' : (l₂.map RideRequest.id).Nodup := by
      simp only [List.map_cons, List.nodup_cons] at hnd
      exact hnd.2
    have hb : b.id ∉ l₂.map RideRequest.id := by
      simp only [List.map_cons, List.nodup_cons] at hnd
      exact hnd.1
    have hbacc : b.id ∉ l₁.map RideRequest.id :=
      fun hmem => hb ((hs.map RideRequest.id).subset hmem)
    rw [List.filter_cons_of_pos (by simpa using hbacc)]
    exact List.perm_middle.trans ((ih hnd').cons b)
  | @cons₂ l₁ l₂ a hs ih =>
    have hnd' : (l₂.map RideRequest.id).Nodup := by
      simp only [List.map_cons, List.nodup_cons] at hnd
      exact hnd.2
    have ha : a.id ∉ l₂.map RideRequest.id := by
      simp only [List.map_cons, List.nodup_cons] at hnd
      exact hnd.1
    rw [List.filter_cons_of_neg (by simp)]
    have hcong : l₂.filter (fun x => decide (x.id ∉ (a :: l₁).map RideRequest.id))
        = l₂.filter (fun x => decide (x.id ∉ l₁.map RideRequest.id)) := by
      apply List.filter_congr
      intro x hx
      have hxa : x.id ≠ a.id := fun he => ha (he ▸ List.mem_map_of_mem RideRequest.id hx)
      simp [List.map_cons, List.mem_cons, hxa]
    rw [List.cons_append, hcong]
    exact (ih hnd').cons a

/-- Main loop invariant for the partition property: over any suffix rest of
the pending list, assuming every not-yet-used pending request still lies in
rest, the members of the produced groups are a permutation of the unused part
of rest. -/
lemma matchLoop_flatten_perm (detour : List RideRequest → RideRequest → ℝ)
    (ms ml : ℤ) (pending : List RideRequest)
    (hnd : (pending.map RideRequest.id).Nodup) :
    ∀ (rest : List RideRequest) (used : List ℕ),
      (∃ pre, pending = pre ++ rest) →
      (∀ x ∈ pending, x.id ∉ used → x ∈ rest) →
      (((matchLoop detour ms ml pending rest used).map (·.1)).flatten).Perm
        (rest.filter (fun x => decide (x.id ∉ used))) := by
  intro rest
  induction rest with
  | nil =>
    intro used hpre hcov
    simp [matchLoop]
  | cons r rest ih =>
    intro used hpre hcov
    obtain ⟨pre, hpe⟩ := hpre
    have hpe2 : pending = (pre ++ [r]) ++ rest := by
      rw [hpe]
      exact (List.append_assoc pre [r] rest).symm
    have hndc : ((r :: rest).map RideRequest.id).Nodup := by
      have h := hnd
      rw [hpe, List.map_append] at h
      exact (List.nodup_append.mp h).2.1
    have hrid : r.id ∉ rest.map RideRequest.id := by
      rw [List.map_cons, List.nodup_cons] at hndc
      exact hndc.1
    have hpnd : pending.Nodup := List.Nodup.of_map RideRequest.id hnd
    simp only [matchLoop]
    by_cases hu : r.id ∈ used
    · rw [if_pos hu]
      rw [List.filter_cons_of_neg (by simp [hu])]
      apply ih used
      · exact ⟨pre ++ [r], hpe2⟩
      · intro x hx hxu
        rcases List.mem_cons.mp (hcov x hx hxu) with rfl | h'
        · exact absurd hu hxu
        · exact h'
    · rw [if_neg hu]
      obtain ⟨acc, hga, hsub, hprop⟩ := addCandidates_group detour ms ml r.id used pending
        [r] r.seats_required r.luggage
      have hdisj : List.Disjoint (pre ++ [r]) rest :=
        List.disjoint_of_nodup_append (hpe2 ▸ hpnd)
      have hsub' : acc.Sublist ((pre ++ [r]) ++ rest) := hpe2 ▸ hsub
      obtain ⟨a1, a2, hacc, ha1, ha2⟩ := List.sublist_append_iff.mp hsub'
      have ha1nil : a1 = [] := by
        rw [List.eq_nil_iff_forall_not_mem]
        intro x hx
        have hxacc : x ∈ acc := hacc ▸ List.mem_append_left _ hx
        have hxp := hprop x hxacc
        push_neg at hxp
        have hxpend : x ∈ pending := hpe2 ▸ List.mem_append_left _ (ha1.subset hx)
        rcases List.mem_cons.mp (hcov x hxpend hxp.2) with rfl | hxrest
        · exact hxp.1 rfl
        · exact hdisj (ha1.subset hx) hxrest
      have hacc_rest : acc.Sublist rest := by
        rw [hacc, ha1nil]
        simpa using ha2
      have haccp : ∀ x ∈ acc, ¬(x.id = r.id) ∧ x.id ∉ used := by
        intro x hx
        have := hprop x hx
        push_neg at this
        exact this
      -- the unused part of rest, before this group's ids are consumed
      have haccL : acc.Sublist (rest.filter (fun x => decide (x.id ∉ used))) :=
        sublist_filter_of_all hacc_rest (fun x hx => by simp [(haccp x hx).2])
      have hndL : ((rest.filter (fun x => decide (x.id ∉ used))).map RideRequest.id).Nodup := by
        have hsl : (rest.filter (fun x => decide (x.id ∉ used))).Sublist rest :=
          List.filter_sublist rest
        have : ((rest.filter (fun x => decide (x.id ∉ used))).map RideRequest.id).Sublist
            (rest.map RideRequest.id) := hsl.map RideRequest.id
        refine this.nodup ?_
        rw [List.map_cons, List.nodup_cons] at hndc
        exact hndc.2
      have hgid : (addCandidates detour ms ml r.id used pending [r] r.seats_required
          r.luggage).1.map RideRequest.id = r.id :: acc.map RideRequest.id := by
        rw [hga]
        rfl
      -- the recursive call, over the enlarged used set
      have hcov' : ∀ x ∈ pending, x.id ∉ used ++ r.id :: acc.map RideRequest.id →
          x ∈ rest := by
        intro x hx hxu
        rw [List.mem_append, List.mem_cons] at hxu
        push_neg at hxu
        rcases List.mem_cons.mp (hcov x hx hxu.1) with rfl | h'
        · exact absurd rfl hxu.2.1
        · exact h'
      have hih := ih (used ++ r.id :: acc.map RideRequest.id) ⟨pre ++ [r], hpe2⟩ hcov'
      -- rewrite the recursive filter through the freshly used ids
      have hclaim : rest.filter (fun x => decide (x.id ∉ used ++ r.id :: acc.map RideRequest.id))
          = (rest.filter (fun x => decide (x.id ∉ used))).filter
              (fun x => decide (x.id ∉ acc.map RideRequest.id)) := by
        rw [List.filter_filter]
        apply List.filter_congr
        intro x hx
        have hxr : x.id ≠ r.id := fun he => hrid (he ▸ List.mem_map_of_mem RideRequest.id hx)
        rw [← Bool.decide_and, decide_eq_decide]
        simp only [List.mem_append, List.mem_cons]
        tauto
      rw [List.filter_cons_of_pos (by simp [hu])]
      simp only [List.map_cons, List.flatten_cons]
      rw [hga]
      show (((r :: acc) : List RideRequest) ++ _).Perm _
      rw [List.cons_append]
      apply List.Perm.cons r
      have hstep1 : ((((matchLoop detour ms ml pending rest
          (used ++ (([r] ++ acc) : List RideRequest).map RideRequest.id)).map (·.1)).flatten)).Perm
          ((rest.filter (fun x => decide (x.id ∉ used))).filter
            (fun x => decide (x.id ∉ acc.map RideRequest.id))) := by
        have hmapeq : (([r] ++ acc) : List RideRequest).map RideRequest.id =
            r.id :: acc.map RideRequest.id := rfl
        rw [hmapeq, ← hclaim]
        exact hih
      exact (List.Perm.append_left acc hstep1).trans (perm_append_filter_not_mem haccL hndL)

/-- In a duplicate-free list of naturals, a member is counted exactly once. -/
lemma countP_eq_one_of_nodup_mem {l : List ℕ} (h : l.Nodup) {k : ℕ} (hk : k ∈ l) :
    l.countP (fun i => i == k) = 1 := by
  induction l with
  | nil => cases hk
  | cons a l ih =>
    rw [List.nodup_cons] at h
    rw [List.countP_cons]
    rcases List.mem_cons.mp hk with rfl | hk'
    · have h0 : l.countP (fun i => i == k) = 0 := by
        rw [List.countP_eq_zero]
        intro b hb
        simp only [beq_iff_eq]
        rintro rfl
        exact h.1 hb
      rw [h0]
      simp
    · have hak : (a == k) = false := by
        simp only [beq_eq_false_iff_ne, ne_eq]
        rintro rfl
        exact h.1 hk'
      rw [ih h.2 hk']
      simp [hak]

/-- If the total id-count of k over a list of groups is one, then exactly one
group contains a member with id k. -/
lemma countP_groups_eq_one (k : ℕ) :
    ∀ gs : List (List RideRequest),
      (gs.map (fun g => (g.map RideRequest.id).countP (fun i => i == k))).sum = 1 →
      gs.countP (fun g => g.any (fun x => x.id == k)) = 1 := by
  intro gs
  induction gs with
  | nil => intro h; simp at h
  | cons g gs ih =>
    intro h
    rw [List.map_cons, List.sum_cons] at h
    rw [List.countP_cons]
    by_cases hg : (g.map RideRequest.id).countP (fun i => i == k) = 0
    · have hany : (g.any (fun x => x.id == k)) = false := by
        rw [Bool.eq_false_iff]
        intro htrue
        obtain ⟨x, hx, hxk⟩ := List.any_eq_true.mp htrue
        have hmem : x.id ∈ g.map RideRequest.id := List.mem_map_of_mem _ hx
        have hpos : 0 < (g.map RideRequest.id).countP (fun i => i == k) :=
          List.countP_pos_iff.mpr ⟨x.id, hmem, hxk⟩
        omega
      have hs : (gs.map (fun g => (g.map RideRequest.id).countP (fun i => i == k))).sum = 1 := by
        omega
      rw [ih hs, hany]
      simp
    · have hpos : 0 < (g.map RideRequest.id).countP (fun i => i == k) :=
        Nat.pos_of_ne_zero hg
      obtain ⟨i, hi, hik⟩ := List.countP_pos_iff.mp hpos
      obtain ⟨x, hx, rfl⟩ := List.mem_map.mp hi
      have hany : (g.any (fun x => x.id == k)) = true := List.any_eq_true.mpr ⟨x, hx, hik⟩
      have hcp0 : gs.countP (fun g => g.any (fun x => x.id == k)) = 0 := by
        rw [List.countP_eq_zero]
        intro g' hg' hga
        obtain ⟨y, hy, hyk⟩ := List.any_eq_true.mp hga
        have hymem : y.id ∈ g'.map RideRequest.id := List.mem_map_of_mem _ hy
        have hgpos : 0 < (g'.map RideRequest.id).countP (fun i => i == k) :=
          List.countP_pos_iff.mpr ⟨y.id, hymem, hyk⟩
        have hmem2 : (g'.map RideRequest.id).countP (fun i => i == k) ∈
            gs.map (fun g => (g.map RideRequest.id).countP (fun i => i == k)) :=
          List.mem_map_of_mem _ hg'
        have hle := List.single_le_sum (fun x _ => Nat.zero_le x) _ hmem2
        omega
      rw [hcp0, hany]
      simp

/-- C2: over a pending queue with pairwise-distinct request ids (the database
primary key), one matching pass produces groups that partition the queue: the
concatenation of the groups is a permutation of the queue (no request lost,
none duplicated), and each pending request appears in exactly one produced
group. -/
theorem matching_partition (ms ml : ℤ) (pending : List RideRequest)
    (hnd : (pending.map RideRequest.id).Nodup) :
    ((run_matching_groups ms ml pending).flatten).Perm pending ∧
    ∀ r ∈ pending,
      (run_matching_groups ms ml pending).countP
        (fun g => g.any (fun x => x.id == r.id)) = 1 := by
  have hperm : ((run_matching_groups ms ml pending).flatten).Perm pending := by
    have h := matchLoop_flatten_perm approximate_detour_if_added ms ml pending hnd pending []
      ⟨[], rfl⟩ (fun x hx _ => hx)
    have hfe : pending.filter (fun x => decide (x.id ∉ ([] : List ℕ))) = pending :=
      List.filter_eq_self.mpr (fun a _ => by simp)
    rw [hfe] at h
    exact h
  refine ⟨hperm, ?_⟩
  intro r hr
  have h1 : ((run_matching_groups ms ml pending).flatten.map RideRequest.id).countP
        (fun i => i == r.id)
      = (pending.map RideRequest.id).countP (fun i => i == r.id) :=
    (hperm.map RideRequest.id).countP_eq _
  have h2 : (pending.map RideRequest.id).countP (fun i => i == r.id) = 1 :=
    countP_eq_one_of_nodup_mem hnd (List.mem_map_of_mem RideRequest.id hr)
  rw [List.map_flatten, List.countP_flatten, List.map_map, h2] at h1
  have h1' : ((run_matching_groups ms ml pending).map
      (fun g => (g.map RideRequest.id).countP (fun i => i == r.id))).sum = 1 := by
    have hfun : (List.countP (fun i => i == r.id) ∘ List.map RideRequest.id)
        = (fun g : List RideRequest => (g.map RideRequest.id).countP (fun i => i == r.id)) := rfl
    rw [← hfun]
    exact h1
  exact countP_groups_eq_one r.id _ h1'

/-- Witness for matching_partition on a two-request queue with distinct ids,
with the exactly-one-group count taken at the first request. -/
theorem matching_partition_witness :
    ((run_matching_groups 4 4 [⟨1, 1, 0, 0, 0, 0, 1, 0, 5.0, 0, "pending"⟩,
        ⟨2, 2, 0, 0, 0, 0, 1, 0, 5.0, 1, "pending"⟩]).flatten).Perm
      [⟨1, 1, 0, 0, 0, 0, 1, 0, 5.0, 0, "pending"⟩,
        ⟨2, 2, 0, 0, 0, 0, 1, 0, 5.0, 1, "pending"⟩] ∧
    (run_matching_groups 4 4 [⟨1, 1, 0, 0, 0, 0, 1, 0, 5.0, 0, "pending"⟩,
        ⟨2, 2, 0, 0, 0, 0, 1, 0, 5.0, 1, "pending"⟩]).countP
      (fun g => g.any (fun x => x.id == (1 : ℕ))) = 1 := by
  have h := matching_partition 4 4 [⟨1, 1, 0, 0, 0, 0, 1, 0, 5.0, 0, "pending"⟩,
    ⟨2, 2, 0, 0, 0, 0, 1, 0, 5.0, 1, "pending"⟩] (by decide)
  exact ⟨h.1, h.2 ⟨1, 1, 0, 0, 0, 0, 1, 0, 5.0, 0, "pending"⟩
    (List.mem_cons_self _ _)⟩

/-! ### C3: status transitions -/

/-- Every member of a produced group comes from the scanned pending list. -/
lemma matchLoop_members (detour : List RideRequest → RideRequest → ℝ)
    (ms ml : ℤ) (pending : List RideRequest) :
    ∀ (rest : List RideRequest) (used : List ℕ) (p : List RideRequest × ℤ × ℤ),
      p ∈ matchLoop detour ms ml pending rest used →
      ∀ x ∈ p.1, x ∈ rest ∨ x ∈ pending := by
  intro rest
  induction rest with
  | nil =>
    intro used p hp
    simp [matchLoop] at hp
  | cons r rest ih =>
    intro used p hp x hx
    simp only [matchLoop] at hp
    by_cases hu : r.id ∈ used
    · rw [if_pos hu] at hp
      rcases ih used p hp x hx with h | h
      · exact Or.inl (List.mem_cons_of_mem _ h)
      · exact Or.inr h
    · rw [if_neg hu] at hp
      rcases List.mem_cons.mp hp with rfl | hp'
      · obtain ⟨acc, hga, hsub, hprop⟩ := addCandidates_group detour ms ml r.id used pending
          [r] r.seats_required r.luggage
        rw [hga] at hx
        rcases List.mem_append.mp hx with h1 | h2
        · rw [List.mem_singleton] at h1
          exact Or.inl (h1 ▸ List.mem_cons_self r rest)
        · exact Or.inr (hsub.subset h2)
      · rcases ih _ p hp' x hx with h | h
        · exact Or.inl (List.mem_cons_of_mem _ h)
        · exact Or.inr h

lemma forall₂_map_self {α : Type*} (R : α → α → Prop) (f : α → α) :
    ∀ l : List α, (∀ x ∈ l, R x (f x)) → List.Forall₂ R l (l.map f) := by
  intro l
  induction l with
  | nil => intro _; exact List.Forall₂.nil
  | cons a l ih =>
    intro h
    exact List.Forall₂.cons (h a (List.mem_cons_self a l))
      (ih (fun x hx => h x (List.mem_cons_of_mem _ hx)))

/-- C3 as stated is false: the cancellation operation checks no precondition
on the current status, so it moves a request from the terminal status
"matched" to "cancelled", leaving the set {matched, cancelled}. -/
theorem cancel_matched_counterexample :
    ((⟨[⟨1, 1, 0, 0, 0, 0, 1, 0, 5.0, 0, "matched"⟩], [], false⟩ : SysState).requests.map
      (fun r => r.status) = ["matched"]) ∧
    ((cancel_request ⟨[⟨1, 1, 0, 0, 0, 0, 1, 0, 5.0, 0, "matched"⟩], [], false⟩ 1).1.requests.map
      (fun r => r.status) = ["cancelled"]) := by
  exact ⟨rfl, rfl⟩

/-- C3 amended: ride transitions are monotonic — accept_ride rewrites only a
"proposed" ride, to "active", and never moves a ride out of
{active, completed, cancelled}; the matching pass rewrites a request status
only from "pending" to "matched"; but cancel_request sets the target request's
status to "cancelled" whatever its current status is (not only from
"pending"). -/
theorem status_transitions_amended (st : SysState) (rid : ℕ) (ms ml : ℤ)
    (hnd : (st.requests.map RideRequest.id).Nodup)
    (hndr : (st.rides.map Ride.id).Nodup) :
    ((cancel_request st rid).1.requests.map (fun r => r.status)
      = st.requests.map (fun r => if r.id = rid then "cancelled" else r.status)) ∧
    ((accept_ride st rid).1.rides.map (fun d => d.status)
      = st.rides.map (fun d =>
          if d.id = rid ∧ d.status = "proposed" then "active" else d.status)) ∧
    List.Forall₂ (fun old new => new.status = old.status ∨
        (old.status = "pending" ∧ new.status = "matched"))
      st.requests (run_matching ms ml st).1.requests := by
  refine ⟨?_, ?_, ?_⟩
  · -- cancel_request
    rcases hfind : st.requests.find? (fun r => r.id == rid) with _ | r0
    · rw [cancel_request, hfind]
      simp only
      symm
      apply List.map_congr_left
      intro r hr
      have := List.find?_eq_none.mp hfind r hr
      rw [if_neg (by simpa using this)]
    · rw [cancel_request, hfind]
      simp only [List.map_map]
      apply List.map_congr_left
      intro r hr
      by_cases h : r.id = rid
      · simp [h]
      · simp [h]
  · -- accept_ride
    rcases hfind : st.rides.find? (fun d => d.id == rid) with _ | d0
    · rw [accept_ride, hfind]
      simp only
      symm
      apply List.map_congr_left
      intro d hd
      have := List.find?_eq_none.mp hfind d hd
      rw [if_neg (by simp at this; simp [this])]
    · have hd0mem : d0 ∈ st.rides := List.mem_of_find?_eq_some hfind
      have hd0id : d0.id = rid := by simpa using List.find?_some hfind
      rw [accept_ride, hfind]
      dsimp only
      by_cases hst : d0.status = "proposed"
      · rw [if_pos hst]
        simp only [List.map_map]
        apply List.map_congr_left
        intro d hd
        by_cases h : d.id = rid
        · have hdd0 : d = d0 :=
            List.inj_on_of_nodup_map hndr hd hd0mem (by rw [h, hd0id])
          simp [h, hdd0, hst, hd0id]
        · simp [h]
      · rw [if_neg hst]
        simp only
        symm
        apply List.map_congr_left
        intro d hd
        by_cases h : d.id = rid
        · have hdd0 : d = d0 :=
            List.inj_on_of_nodup_map hndr hd hd0mem (by rw [h, hd0id])
          rw [if_neg (by rw [hdd0]; exact fun hc => hst hc.2)]
        · rw [if_neg (fun hc => h hc.1)]
  · -- run_matching
    obtain ⟨reqs, rides, lh⟩ := st
    simp only at hnd
    cases lh
    · -- lock free: the pass runs
      have hreq : (run_matching ms ml ⟨reqs, rides, false⟩).1.requests =
          reqs.map (fun r =>
            if r.id ∈ ((matchLoop approximate_detour_if_added ms ml
                (reqs.filter (fun r => r.status == "pending"))
                (reqs.filter (fun r => r.status == "pending")) []).map (·.1)).flatten.map
                  RideRequest.id
            then { r with status := "matched" } else r) := rfl
      rw [hreq]
      apply forall₂_map_self
      intro r hr
      by_cases hm : r.id ∈ ((matchLoop approximate_detour_if_added ms ml
          (reqs.filter (fun r => r.status == "pending"))
          (reqs.filter (fun r => r.status == "pending")) []).map (·.1)).flatten.map
            RideRequest.id
      · rw [if_pos hm]
        refine Or.inr ⟨?_, rfl⟩
        obtain ⟨y, hy, hyid⟩ := List.mem_map.mp hm
        obtain ⟨g', hg', hyg⟩ := List.mem_flatten.mp hy
        obtain ⟨p, hp, rfl⟩ := List.mem_map.mp hg'
        have hyp := matchLoop_members approximate_detour_if_added ms ml
          (reqs.filter (fun r => r.status == "pending"))
          (reqs.filter (fun r => r.status == "pending")) [] p hp y hyg
        have hypend : y ∈ reqs.filter (fun r => r.status == "pending") := by
          rcases hyp with h | h <;> exact h
        have hymem : y ∈ reqs := (List.mem_filter.mp hypend).1
        have hystat : y.status = "pending" := by
          have := (List.mem_filter.mp hypend).2
          simpa using this
        have : y = r := List.inj_on_of_nodup_map hnd hymem hr hyid
        rw [← this]
        exact hystat
      · rw [if_neg hm]
        exact Or.inl rfl
    · -- lock held: nothing changes
      exact List.forall₂_same.mpr (fun x _ => Or.inl rfl)

/-- Witness for status_transitions_amended on a one-request, one-ride state. -/
theorem status_transitions_amended_witness :
    ((cancel_request ⟨[⟨1, 1, 0, 0, 0, 0, 1, 0, 5.0, 0, "pending"⟩],
        [⟨1, none, 4, 4, 1, 0, [1], 0, 0, 0, 0, "proposed"⟩], false⟩ 1).1.requests.map
      (fun r => r.status)
      = ([⟨1, 1, 0, 0, 0, 0, 1, 0, 5.0, 0, "pending"⟩] : List RideRequest).map
          (fun r => if r.id = 1 then "cancelled" else r.status)) ∧
    ((accept_ride ⟨[⟨1, 1, 0, 0, 0, 0, 1, 0, 5.0, 0, "pending"⟩],
        [⟨1, none, 4, 4, 1, 0, [1], 0, 0, 0, 0, "proposed"⟩], false⟩ 1).1.rides.map
      (fun d => d.status)
      = ([⟨1, none, 4, 4, 1, 0, [1], 0, 0, 0, 0, "proposed"⟩] : List Ride).map
          (fun d => if d.id = 1 ∧ d.status = "proposed" then "active" else d.status)) ∧
    List.Forall₂ (fun old new => new.status = old.status ∨
        (old.status = "pending" ∧ new.status = "matched"))
      ([⟨1, 1, 0, 0, 0, 0, 1, 0, 5.0, 0, "pending"⟩] : List RideRequest)
      (run_matching 4 4 ⟨[⟨1, 1, 0, 0, 0, 0, 1, 0, 5.0, 0, "pending"⟩],
        [⟨1, none, 4, 4, 1, 0, [1], 0, 0, 0, 0, "proposed"⟩], false⟩).1.requests :=
  status_transitions_amended
    ⟨[⟨1, 1, 0, 0, 0, 0, 1, 0, 5.0, 0, "pending"⟩],
      [⟨1, none, 4, 4, 1, 0, [1], 0, 0, 0, 0, "proposed"⟩], false⟩ 1 4 4
    (by decide) (by decide)

end RidePool
